import Mathlib

/-!
Shallow embedding of the real-time messaging and presence coordinator of
`backend/server.js` (socket handlers `send_message`, `mark_read`, `disconnect`
and the REST endpoints `GET /conversations`, `GET /conversations/user/:username`,
`POST /conversations/user/:username/messages`, `GET /api/messages/unread/count`).

Mongo documents become Lean structures; the message collection is a
`List Msg`; `updateMany` with `$addToSet` becomes a structural recursion that
returns the new list together with the `modifiedCount`; the socket.io
`connectedUsers` Map becomes an insertion-ordered association list; every
`io.to(sid).emit(...)` becomes a `WireEvent` value collected in a list.
-/

namespace Messaging

/-- A persisted message document, with the fields `server.js` reads and writes:
`conversationId`, `sender`, `recipients`, `text`, `createdAt` (model time as a
natural number), `deliveredTo`, `readBy`. -/
structure Msg where
  conversationId : String
  sender : String
  recipients : List String
  text : String
  createdAt : Nat
  deliveredTo : List String
  readBy : List String
deriving Repr, DecidableEq

/-- A user record as far as the messaging endpoints use it: the id
(`_id.toString()`) and the username used for route resolution. -/
structure UserRec where
  id : String
  username : String
deriving Repr, DecidableEq

/-- `User.findOne({ username })`. -/
def findUserByUsername (users : List UserRec) (uname : String) : Option UserRec :=
  users.find? (fun u => u.username == uname)

/-- The `connectedUsers` Map: userId -> socketId, insertion ordered. -/
abbrev Registry := List (String × String)

/-- `connectedUsers.get(k)`. -/
def regGet (reg : Registry) (k : String) : Option String :=
  (reg.find? (fun p => p.1 == k)).map (fun p => p.2)

/-- `connectedUsers.set(k, v)`: replaces in place if the key is present,
otherwise appends (JS Map keeps the original insertion position on update). -/
def regSet (reg : Registry) (k v : String) : Registry :=
  if reg.any (fun p => p.1 == k) then
    reg.map (fun p => if p.1 == k then (k, v) else p)
  else reg ++ [(k, v)]

/-- `connectedUsers.delete(k)`. -/
def regDelete (reg : Registry) (k : String) : Registry :=
  reg.filter (fun p => p.1 != k)

/-- The `disconnect` handler's registry mutation
(`connectedUsers.delete(String(socket.userId))`).  The disconnecting socket's
own id `handle` is available to the handler but never consulted. -/
def disconnectUnregister (reg : Registry) (userId handle : String) : Registry :=
  regDelete reg userId

/-- JS compares strings code unit by code unit; lexicographic order on the
character lists. -/
def charsLe : List Char → List Char → Bool
  | [], _ => true
  | _ :: _, [] => false
  | a :: as, b :: bs =>
    if a.toNat < b.toNat then true
    else if b.toNat < a.toNat then false
    else charsLe as bs

/-- `a <= b` on JS strings. -/
def strLe (a b : String) : Bool := charsLe a.data b.data

/-- `[a, b].sort().join("_")`: the canonical conversation id, the sorted pair
joined with the fixed separator `"_"`. -/
def conversationIdOf (a b : String) : String :=
  if strLe a b then a ++ "_" ++ b else b ++ "_" ++ a

/-- JS `String.prototype.trim`: strip whitespace from both ends. -/
def jsTrim (s : String) : String :=
  ⟨((s.data.dropWhile Char.isWhitespace).reverse.dropWhile Char.isWhitespace).reverse⟩

/-- `LIMITS.messageLength` in `server.js`. -/
def messageLengthLimit : Nat := 5000

/-- Mongo `$addToSet`: append the element unless it is already present. -/
def addToSet (l : List String) (x : String) : List String :=
  if l.contains x then l else l ++ [x]

/-- The `updateMany` filter of the `mark_read` handler:
`{ conversationId, sender: senderId, readBy: { $ne: userId } }`. -/
def markReadFilter (c s u : String) (m : Msg) : Bool :=
  m.conversationId == c && m.sender == s && !(m.readBy.contains u)

/-- `Message.updateMany(markReadFilter, { $addToSet: { readBy: u } })`:
returns the updated collection and `modifiedCount`. -/
def updateManyMarkRead (c s u : String) : List Msg → List Msg × Nat
  | [] => ([], 0)
  | m :: rest =>
    let r := updateManyMarkRead c s u rest
    if markReadFilter c s u m then
      ({ m with readBy := addToSet m.readBy u } :: r.1, r.2 + 1)
    else (m :: r.1, r.2)

/-- An `io.to(socketId).emit(...)` observable on the wire. -/
inductive WireEvent where
  | messageSent (toSocket : String) (m : Msg)
  | newMessage (toSocket : String) (m : Msg)
  | messageDelivered (toSocket : String)
  | messagesRead (toSocket : String) (conversationId readBy : String)
deriving Repr, DecidableEq

/-- Result of the socket `mark_read` handler. -/
structure MarkReadResult where
  log : List Msg
  modifiedCountN : Nat
  emits : List WireEvent
deriving Repr, DecidableEq

/-- The socket `mark_read` handler: run the `updateMany`, and if
`modifiedCount > 0` and the sender is in `connectedUsers`, emit `messages_read`
to the sender's socket. -/
def sockMarkRead (reg : Registry) (log : List Msg) (userId c s : String) :
    MarkReadResult :=
  let r := updateManyMarkRead c s userId log
  let ev : List WireEvent :=
    if r.2 > 0 then
      match regGet reg s with
      | some sid => [WireEvent.messagesRead sid c userId]
      | none => []
    else []
  ⟨r.1, r.2, ev⟩

/-- Result of a send operation: the collection afterwards, the wire events,
and whether the request was accepted. -/
inductive SendOutcome where
  | silentReject
  | validationError
  | notFound
  | accepted
deriving Repr, DecidableEq

structure SendResult where
  log : List Msg
  emits : List WireEvent
  outcome : SendOutcome
deriving Repr, DecidableEq

/-- The socket `send_message` handler (first variant, `server.js` lines
172-226): bail out silently when the recipient id or the trimmed text is
empty; otherwise persist the message (no recipient lookup, no length check),
ack the sender with `message_sent`, and if the recipient is in
`connectedUsers`, push `new_message`, `$addToSet` the recipient into
`deliveredTo`, and emit `message_delivered` to the sender. -/
def socketSendMessage (reg : Registry) (log : List Msg)
    (senderId senderSocket recipientId text : String) (now : Nat) : SendResult :=
  if recipientId == "" || jsTrim text == "" then ⟨log, [], .silentReject⟩
  else
    let cid := conversationIdOf senderId recipientId
    let msg : Msg := ⟨cid, senderId, [recipientId], jsTrim text, now, [], []⟩
    match regGet reg recipientId with
    | some rsock =>
        ⟨log ++ [{ msg with deliveredTo := addToSet msg.deliveredTo recipientId }],
         [WireEvent.messageSent senderSocket msg, WireEvent.newMessage rsock msg,
          WireEvent.messageDelivered senderSocket], .accepted⟩
    | none => ⟨log ++ [msg], [WireEvent.messageSent senderSocket msg], .accepted⟩

/-- `POST /conversations/user/:username/messages`: 400 when the trimmed text is
empty, 404 when the username resolves to no user; otherwise persist the
message and, if the recipient is in `connectedUsers`, push `new_message` to its
socket.  The route never touches `deliveredTo` and never emits
`message_delivered`; the HTTP 201 response is the sender's ack. -/
def restSendMessage (reg : Registry) (users : List UserRec) (log : List Msg)
    (fromId uname text : String) (now : Nat) : SendResult :=
  let trimmed := jsTrim text
  if trimmed == "" then ⟨log, [], .validationError⟩
  else
    match findUserByUsername users uname with
    | none => ⟨log, [], .notFound⟩
    | some toUser =>
        let toId := toUser.id
        let cid := conversationIdOf fromId toId
        let msg : Msg := ⟨cid, fromId, [toId], trimmed, now, [], []⟩
        let evs := match regGet reg toId with
          | some rsock => [WireEvent.newMessage rsock msg]
          | none => []
        ⟨log ++ [msg], evs, .accepted⟩

/-- `.sort({ createdAt: 1 })` comparison. -/
def createdAsc (a b : Msg) : Prop := a.createdAt ≤ b.createdAt

/-- `.sort({ createdAt: -1 })` comparison. -/
def createdDesc (a b : Msg) : Prop := b.createdAt ≤ a.createdAt

instance : DecidableRel createdAsc := fun a b => Nat.decLe _ _
instance : DecidableRel createdDesc := fun a b => Nat.decLe _ _

instance : IsTotal Msg createdAsc := ⟨fun a b => Nat.le_total a.createdAt b.createdAt⟩
instance : IsTrans Msg createdAsc := ⟨fun _ _ _ h1 h2 => Nat.le_trans h1 h2⟩
instance : IsTotal Msg createdDesc := ⟨fun a b => Nat.le_total b.createdAt a.createdAt⟩
instance : IsTrans Msg createdDesc := ⟨fun _ _ _ h1 h2 => Nat.le_trans h2 h1⟩

/-- Result of `GET /conversations/user/:username`. -/
structure GetConvResult where
  withId : String
  messages : List Msg
  log : List Msg
  markedCount : Nat
  emits : List WireEvent
deriving Repr, DecidableEq

/-- `GET /conversations/user/:username`: resolve the username (404 ⇒ `none`),
compute the canonical conversation id, fetch that conversation's messages
sorted ascending by `createdAt`, then run the same `updateMany` as `mark_read`
to mark the counterpart's messages read for the viewer.  The handler ignores
the `updateMany` result and emits nothing; `markedCount` records the
`modifiedCount` the code discards, and the registry parameter is never read. -/
def getConversation (reg : Registry) (users : List UserRec) (log : List Msg)
    (myId uname : String) : Option GetConvResult :=
  match findUserByUsername users uname with
  | none => none
  | some other =>
      let otherId := other.id
      let cid := conversationIdOf myId otherId
      let msgs := List.insertionSort createdAsc (log.filter (fun m => m.conversationId == cid))
      let r := updateManyMarkRead cid otherId myId log
      some ⟨otherId, msgs, r.1, r.2, []⟩

/-- The per-conversation unread count of `GET /conversations`:
`countDocuments({ conversationId, sender: { $ne: me }, readBy: { $ne: me } })`. -/
def unreadInConv (userId cid : String) (log : List Msg) : Nat :=
  (log.filter (fun m =>
    m.conversationId == cid && m.sender != userId && !(m.readBy.contains userId))).length

/-- `GET /api/messages/unread/count`:
`countDocuments({ recipients: me, sender: { $ne: me }, readBy: { $ne: me } })`. -/
def totalUnreadCount (userId : String) (log : List Msg) : Nat :=
  (log.filter (fun m =>
    m.recipients.contains userId && m.sender != userId && !(m.readBy.contains userId))).length

/-- One entry of the `GET /conversations` response. -/
structure ConvEntry where
  conversationId : String
  withId : String
  lastText : String
  lastCreatedAt : Nat
  lastSenderId : String
  unreadCount : Nat
deriving Repr, DecidableEq

/-- The grouping loop of `GET /conversations`: walk the messages (already
sorted most-recent first), skip a falsy `conversationId`, and keep only the
first message seen for each conversation id (`if (!map.has(convId))`). -/
def dedupByConv : List Msg → List String → List Msg
  | [], _ => []
  | m :: rest, seen =>
    if m.conversationId == "" || seen.contains m.conversationId then
      dedupByConv rest seen
    else m :: dedupByConv rest (m.conversationId :: seen)

/-- Build the response entry for a group's representative (its most recent
message): counterpart resolution `isMine ? recipients[0] : sender`, last
message preview, and the per-conversation unread count over the collection. -/
def entryOf (userId : String) (log : List Msg) (m : Msg) : ConvEntry :=
  ⟨m.conversationId,
   (if m.sender == userId then m.recipients.headD "" else m.sender),
   m.text, m.createdAt, m.sender,
   unreadInConv userId m.conversationId log⟩

/-- `GET /conversations`: fetch the messages where the user is sender or
recipient, sort descending by `createdAt`, group to one entry per conversation
id keeping the most recent message, and attach unread counts. -/
def listConversations (userId : String) (log : List Msg) : List ConvEntry :=
  let relevant := log.filter (fun m => m.sender == userId || m.recipients.contains userId)
  let sorted := List.insertionSort createdDesc relevant
  (dedupByConv sorted []).map (entryOf userId log)

/-! ### Helper lemmas -/

/-- The one-document effect of the `mark_read` update. -/
def markReadApply (c s u : String) (m : Msg) : Msg :=
  if markReadFilter c s u m then { m with readBy := addToSet m.readBy u } else m

/-- One inbound operation of the subsystem, carrying the registry and user
store in effect when it is handled. -/
inductive Op where
  | sockSend (reg : Registry) (senderId senderSocket recipientId text : String) (now : Nat)
  | sockRead (reg : Registry) (userId c s : String)
  | restSend (reg : Registry) (users : List UserRec) (fromId uname text : String) (now : Nat)
  | histFetch (reg : Registry) (users : List UserRec) (myId uname : String)

/-- The message-collection effect of one operation. -/
def applyOp (log : List Msg) : Op → List Msg
  | Op.sockSend reg senderId ssock rid text now =>
      (socketSendMessage reg log senderId ssock rid text now).log
  | Op.sockRead reg u c s => (sockMarkRead reg log u c s).log
  | Op.restSend reg users fromId uname text now =>
      (restSendMessage reg users log fromId uname text now).log
  | Op.histFetch reg users myId uname =>
      match getConversation reg users log myId uname with
      | some res => res.log
      | none => log

/-- The message-collection effect of a sequence of operations. -/
def applyOps (log : List Msg) : List Op → List Msg
  | [] => log
  | op :: rest => applyOps (applyOp log op) rest

/-- Append-only: every message position of the old collection persists, with
its `readBy` and `deliveredTo` sets only extended, never shrunk. -/
def ExtendsLog (old new : List Msg) : Prop :=
  ∀ i (hi : i < old.length), ∃ (hj : i < new.length) (t d : List String),
    (new.get ⟨i, hj⟩).readBy = (old.get ⟨i, hi⟩).readBy ++ t ∧
    (new.get ⟨i, hj⟩).deliveredTo = (old.get ⟨i, hi⟩).deliveredTo ++ d

/-- The invariant: a message's sender never appears in its own `deliveredTo`
or `readBy`. -/
def senderNotInSets (log : List Msg) : Prop :=
  ∀ m ∈ log, m.sender ∉ m.deliveredTo ∧ m.sender ∉ m.readBy

/-- An operation is self-directed when its reader/sender coincides with its
counterpart; only non-self operations preserve the sender-exclusion invariant. -/
def Op.nonSelf : Op → Bool
  | Op.sockSend _ senderId _ recipientId _ _ => senderId != recipientId
  | Op.sockRead _ userId _ s => userId != s
  | Op.restSend _ _ _ _ _ _ => true
  | Op.histFetch _ users myId uname =>
      match findUserByUsername users uname with
      | some other => myId != other.id
      | none => true

/-- `updateMany` is the pointwise update together with the count of matched
documents. -/
theorem updateManyMarkRead_eq (c s u : String) (log : List Msg) :
    updateManyMarkRead c s u log =
      (log.map (markReadApply c s u), log.countP (markReadFilter c s u)) := by
  induction log with
  | nil => rfl
  | cons m rest ih =>
    by_cases h : markReadFilter c s u m = true
    · simp [updateManyMarkRead, ih, markReadApply, h, List.countP_cons]
    · simp [updateManyMarkRead, ih, markReadApply, h, List.countP_cons]

theorem mem_addToSet_self (l : List String) (u : String) : u ∈ addToSet l u := by
  unfold addToSet
  by_cases h : l.contains u = true
  · rw [if_pos h]
    exact List.mem_of_elem_eq_true h
  · rw [if_neg h]
    exact List.mem_append_right l (List.mem_singleton.2 rfl)

theorem addToSet_contains (l : List String) (u : String) :
    (addToSet l u).contains u = true :=
  List.elem_eq_true_of_mem (mem_addToSet_self l u)

/-- After the update, no document matches the filter any more. -/
theorem markReadFilter_markReadApply (c s u : String) (m : Msg) :
    markReadFilter c s u (markReadApply c s u m) = false := by
  unfold markReadApply
  by_cases h : markReadFilter c s u m = true
  · rw [if_pos h]
    unfold markReadFilter at h ⊢
    simp only [Bool.and_eq_true, Bool.not_eq_true'] at h
    simp [addToSet_contains, mem_addToSet_self]
  · rw [if_neg h]
    cases hb : markReadFilter c s u m with
    | false => rfl
    | true => exact absurd hb h

theorem countP_markReadFilter_after (c s u : String) (log : List Msg) :
    (log.map (markReadApply c s u)).countP (markReadFilter c s u) = 0 := by
  rw [List.countP_eq_zero]
  intro m hm
  rcases List.mem_map.1 hm with ⟨m₀, _, rfl⟩
  simp [markReadFilter_markReadApply]

/-! ### C7: symmetry of the canonical conversation id -/

theorem charsLe_total (as bs : List Char) (h : charsLe as bs = false) :
    charsLe bs as = true := by
  induction as generalizing bs with
  | nil => simp [charsLe] at h
  | cons a as ih =>
    cases bs with
    | nil => rfl
    | cons b bs =>
      unfold charsLe at h ⊢
      by_cases hab : a.toNat < b.toNat
      · simp [hab] at h
      · by_cases hba : b.toNat < a.toNat
        · simp [hba]
        · simp only [hab, hba, if_false] at h
          simp only [hab, hba, if_false]
          exact ih bs h

theorem charsLe_antisymm (as bs : List Char) (h1 : charsLe as bs = true)
    (h2 : charsLe bs as = true) : as = bs := by
  induction as generalizing bs with
  | nil =>
    cases bs with
    | nil => rfl
    | cons b bs => simp [charsLe] at h2
  | cons a as ih =>
    cases bs with
    | nil => simp [charsLe] at h1
    | cons b bs =>
      unfold charsLe at h1 h2
      by_cases hab : a.toNat < b.toNat
      · have : ¬ b.toNat < a.toNat := Nat.lt_asymm hab
        simp [hab, this] at h2
      · by_cases hba : b.toNat < a.toNat
        · simp [hab, hba] at h1
        · have hv : a = b := by
            have hn : a.toNat = b.toNat :=
              Nat.le_antisymm (Nat.le_of_not_lt hba) (Nat.le_of_not_lt hab)
            exact Char.eq_of_val_eq (UInt32.ext hn)
          simp only [hab, hba, if_false] at h1 h2
          rw [hv, ih bs h1 h2]

theorem strLe_antisymm (a b : String) (h1 : strLe a b = true)
    (h2 : strLe b a = true) : a = b := by
  have h := charsLe_antisymm a.data b.data h1 h2
  cases a; cases b; exact congrArg String.mk h

/-- C7: the canonical conversation id — `[a, b].sort().join("_")`, i.e. the
sorted pair joined with the fixed separator `"_"` — is symmetric:
`conversationIdOf a b = conversationIdOf b a` for all user ids. -/
theorem conversationId_symm (a b : String) :
    conversationIdOf a b = conversationIdOf b a := by
  unfold conversationIdOf
  by_cases h : strLe a b = true
  · by_cases h' : strLe b a = true
    · rw [strLe_antisymm a b h h']
    · simp [h, h']
  · have h' : strLe b a = true :=
      charsLe_total a.data b.data (Bool.eq_false_iff.mpr (by simpa using h))
    simp [h, h']

/-! ### C9: the disconnect handler is not handle-guarded -/

theorem regGet_cons (k v u : String) (l : Registry) :
    regGet ((k, v) :: l) u = if k == u then some v else regGet l u := by
  unfold regGet
  cases h : (k == u) with
  | true => simp [List.find?, h]
  | false => simp [List.find?, h]

theorem regGet_regDelete (reg : Registry) (u : String) :
    regGet (regDelete reg u) u = none := by
  induction reg with
  | nil => rfl
  | cons p rest ih =>
    unfold regDelete at ih ⊢
    rw [List.filter_cons]
    by_cases h : (p.1 != u) = true
    · rw [if_pos h]
      obtain ⟨k, v⟩ := p
      rw [regGet_cons]
      have hk : (k == u) = false := by
        simpa [bne] using h
      rw [hk]
      simpa using ih
    · rw [if_neg h]
      exact ih

/-- C9 counterexample: `unregister` is claimed to remove the mapping only when
it still points to the given handle.  But after `u` registers handle `s1` and
then handle `s2` (which replaces `s1`), a stale disconnect of the *old* handle
`s1` still evicts the mapping: the registry mapped `u` to `s2` before the
disconnect, and to nothing after it. -/
theorem unregister_unguarded_counterexample :
    regGet (regSet (regSet [] "u" "s1") "u" "s2") "u" = some "s2" ∧
    regGet (disconnectUnregister (regSet (regSet [] "u" "s1") "u" "s2") "u" "s1") "u"
      = none := by
  constructor
  · rfl
  · rfl

/-- C9 amended: the disconnect handler removes the registry mapping for the
user id unconditionally — its result is independent of which handle is
disconnecting, and afterwards the user id is always unmapped — so a stale
disconnect of an older connection does evict a newer connection registered by
the same user in the interim. -/
theorem unregister_unconditional (reg : Registry) (u h h' : String) :
    disconnectUnregister reg u h = disconnectUnregister reg u h' ∧
    regGet (disconnectUnregister reg u h) u = none := by
  exact ⟨rfl, regGet_regDelete reg u⟩

/-! ### C1: idempotence of mark_read -/

/-- C1: `markRead` is idempotent.  After a first `mark_read` call has
transitioned every eligible message (the `updateMany` updates all matches, or
none existed), a second call by the same reader for the same conversation and
counterpart — under any registry state — reports `modifiedCount = 0` and emits
no `messages_read` notification to the counterpart's connection. -/
theorem sockMarkRead_emits_of_zero (reg : Registry) (log : List Msg) (u c s : String)
    (h : (updateManyMarkRead c s u log).2 = 0) :
    (sockMarkRead reg log u c s).emits = [] := by
  unfold sockMarkRead
  simp [h]

theorem mark_read_idempotent (reg₁ reg₂ : Registry) (log : List Msg)
    (userId c s : String) :
    (sockMarkRead reg₂ ((sockMarkRead reg₁ log userId c s).log) userId c s).modifiedCountN = 0 ∧
    (sockMarkRead reg₂ ((sockMarkRead reg₁ log userId c s).log) userId c s).emits = [] := by
  have hlog : (sockMarkRead reg₁ log userId c s).log
      = log.map (markReadApply c s userId) := by
    show (updateManyMarkRead c s userId log).1 = _
    rw [updateManyMarkRead_eq]
  have hzero :
      (updateManyMarkRead c s userId ((sockMarkRead reg₁ log userId c s).log)).2 = 0 := by
    rw [hlog, updateManyMarkRead_eq]
    exact countP_markReadFilter_after c s userId log
  constructor
  · show (updateManyMarkRead c s userId ((sockMarkRead reg₁ log userId c s).log)).2 = 0
    exact hzero
  · exact sockMarkRead_emits_of_zero reg₂ _ userId c s hzero

/-! ### C10: mark_read performs no participant check -/

theorem addToSet_of_not_contains (l : List String) (u : String)
    (h : l.contains u = false) : addToSet l u = l ++ [u] := by
  unfold addToSet
  rw [h]
  simp

theorem sockMarkRead_emits_of_pos (reg : Registry) (log : List Msg) (u c s sid : String)
    (hpos : 0 < (updateManyMarkRead c s u log).2) (hsid : regGet reg s = some sid) :
    (sockMarkRead reg log u c s).emits = [WireEvent.messagesRead sid c u] := by
  unfold sockMarkRead
  simp [hpos, hsid]

/-- C10: the socket `mark_read` handler performs no participant check.  For any
connected reader `u` and any client-supplied `conversationId` and `senderId`,
every message in that conversation authored by that sender and not yet read by
`u` gets `u` appended to its `readBy` — the hypotheses mention the message's
`recipients` nowhere, so this holds even when `u` is not a recipient — the
transition count is positive, and if the sender's connection is registered the
handler emits a `messages_read` event naming the conversation and `u`. -/
theorem mark_read_no_participant_check (reg : Registry) (log : List Msg)
    (u c s : String) (m : Msg) (hm : m ∈ log) (hc : m.conversationId = c)
    (hs : m.sender = s) (hr : m.readBy.contains u = false) :
    { m with readBy := m.readBy ++ [u] } ∈ (sockMarkRead reg log u c s).log ∧
    (sockMarkRead reg log u c s).modifiedCountN > 0 ∧
    (∀ sid, regGet reg s = some sid →
      (sockMarkRead reg log u c s).emits = [WireEvent.messagesRead sid c u]) := by
  have hfilter : markReadFilter c s u m = true := by
    unfold markReadFilter
    rw [hc, hs, hr]
    simp
  have hpos : 0 < (updateManyMarkRead c s u log).2 := by
    rw [updateManyMarkRead_eq]
    exact List.countP_pos.2 ⟨m, hm, hfilter⟩
  refine ⟨?_, hpos, fun sid hsid => sockMarkRead_emits_of_pos reg log u c s sid hpos hsid⟩
  show { m with readBy := m.readBy ++ [u] } ∈ (updateManyMarkRead c s u log).1
  rw [updateManyMarkRead_eq]
  have : markReadApply c s u m = { m with readBy := m.readBy ++ [u] } := by
    unfold markReadApply
    rw [if_pos hfilter, addToSet_of_not_contains m.readBy u hr]
  exact this ▸ List.mem_map_of_mem (markReadApply c s u) hm

/-- C10 witness: reader `"v"` is not among the recipients (`["x"]`) of the
message, yet `mark_read` appends `"v"` to `readBy` and notifies the sender. -/
theorem mark_read_no_participant_check_witness :
    ({ conversationId := "c1", sender := "s", recipients := ["x"], text := "t",
       createdAt := 1, deliveredTo := [], readBy := ["v"] } : Msg) ∈
      (sockMarkRead [("s", "ss")] [⟨"c1", "s", ["x"], "t", 1, [], []⟩] "v" "c1" "s").log ∧
    (sockMarkRead [("s", "ss")] [⟨"c1", "s", ["x"], "t", 1, [], []⟩] "v" "c1" "s").modifiedCountN
      > 0 ∧
    (sockMarkRead [("s", "ss")] [⟨"c1", "s", ["x"], "t", 1, [], []⟩] "v" "c1" "s").emits
      = [WireEvent.messagesRead "ss" "c1" "v"] := by
  have h := mark_read_no_participant_check [("s", "ss")]
    [⟨"c1", "s", ["x"], "t", 1, [], []⟩] "v" "c1" "s"
    ⟨"c1", "s", ["x"], "t", 1, [], []⟩
    (List.mem_singleton.2 rfl) rfl rfl (by decide)
  exact ⟨h.1, h.2.1, h.2.2 "ss" rfl⟩

/-! ### C5: conversation history fetch -/

theorem markReadApply_contains (c s u : String) (m : Msg)
    (hc : (markReadApply c s u m).conversationId = c)
    (hs : (markReadApply c s u m).sender = s) :
    (markReadApply c s u m).readBy.contains u = true := by
  unfold markReadApply at *
  by_cases h : markReadFilter c s u m = true
  · rw [if_pos h] at *
    exact addToSet_contains m.readBy u
  · rw [if_neg h] at *
    cases hcont : m.readBy.contains u with
    | true => rfl
    | false =>
      exfalso
      apply h
      unfold markReadFilter
      rw [hc, hs, hcont]
      simp

theorem updateMany_marks_all (c s u : String) (log : List Msg) :
    ∀ m ∈ (updateManyMarkRead c s u log).1,
      m.conversationId = c → m.sender = s → m.readBy.contains u = true := by
  intro m hm hc hs
  rw [updateManyMarkRead_eq] at hm
  rcases List.mem_map.1 hm with ⟨m₀, _, rfl⟩
  exact markReadApply_contains c s u m₀ hc hs

/-- C5 counterexample: the claim requires a read-receipt notification to the
counterpart whenever the history fetch transitions at least one message.  Here
viewer `"a"` fetches the conversation with `"bob"` (id `"b"`); one unread
message from `"b"` is transitioned (`markedCount = 1`), `"b"`'s connection is
registered (socket `"sb"`), yet the handler emits nothing: the route runs the
`updateMany` and never contacts the registry. -/
theorem getConversation_no_receipt_counterexample :
    getConversation [("b", "sb")] [⟨"b", "bob"⟩]
        [⟨"a_b", "b", ["a"], "hi", 1, [], []⟩] "a" "bob"
      = some ⟨"b", [⟨"a_b", "b", ["a"], "hi", 1, [], []⟩],
              [⟨"a_b", "b", ["a"], "hi", 1, [], ["a"]⟩], 1, []⟩ ∧
    regGet [("b", "sb")] "b" = some "sb" := by
  exact ⟨by decide, rfl⟩

/-- C5 (amended): fetching conversation history returns the conversation's
messages oldest-first (sorted ascending by `createdAt`, a permutation of the
log's messages for that conversation), and marks every message of the
counterpart in the conversation as read by the viewer; but it notifies nobody —
the handler emits no read-receipt event regardless of the transition count and
of the counterpart's registration. -/
theorem getConversation_amended (reg : Registry) (users : List UserRec)
    (log : List Msg) (myId uname : String) (other : UserRec)
    (hfind : findUserByUsername users uname = some other) :
    ∃ res, getConversation reg users log myId uname = some res ∧
      res.withId = other.id ∧
      List.Sorted createdAsc res.messages ∧
      res.messages.Perm
        (log.filter (fun m => m.conversationId == conversationIdOf myId other.id)) ∧
      (∀ m ∈ res.log, m.conversationId = conversationIdOf myId other.id →
        m.sender = other.id → m.readBy.contains myId = true) ∧
      res.emits = [] := by
  unfold getConversation
  rw [hfind]
  refine ⟨_, rfl, rfl, ?_, ?_, ?_, rfl⟩
  · exact List.sorted_insertionSort createdAsc _
  · exact List.perm_insertionSort createdAsc _
  · exact updateMany_marks_all _ _ _ log

/-- C5 witness: the amended statement at a concrete input — the fetched
history is oldest-first and the counterpart's message is marked read. -/
theorem getConversation_amended_witness :
    ∃ res, getConversation [] [⟨"b", "bob"⟩]
        [⟨"a_b", "b", ["a"], "hi", 1, [], []⟩] "a" "bob" = some res ∧
      res.withId = "b" ∧
      List.Sorted createdAsc res.messages ∧
      res.messages.Perm
        (([⟨"a_b", "b", ["a"], "hi", 1, [], []⟩] : List Msg).filter
          (fun m => m.conversationId == conversationIdOf "a" "b")) ∧
      (∀ m ∈ res.log, m.conversationId = conversationIdOf "a" "b" →
        m.sender = "b" → m.readBy.contains "a" = true) ∧
      res.emits = [] :=
  getConversation_amended [] [⟨"b", "bob"⟩]
    [⟨"a_b", "b", ["a"], "hi", 1, [], []⟩] "a" "bob" ⟨"b", "bob"⟩ rfl

/-! ### C2: listConversations groups to one entry per conversation, sorted -/

theorem mem_dedupByConv (l : List Msg) (seen : List String) (r : Msg)
    (hr : r ∈ dedupByConv l seen) :
    r.conversationId ≠ "" ∧ r.conversationId ∉ seen ∧ r ∈ l := by
  induction l generalizing seen with
  | nil => cases hr
  | cons m rest ih =>
    unfold dedupByConv at hr
    by_cases hcond : (m.conversationId == "" || seen.contains m.conversationId) = true
    · rw [if_pos hcond] at hr
      obtain ⟨h1, h2, h3⟩ := ih seen hr
      exact ⟨h1, h2, List.mem_cons_of_mem m h3⟩
    · rw [if_neg hcond] at hr
      simp only [Bool.or_eq_true, not_or] at hcond
      obtain ⟨hne, hns⟩ := hcond
      rcases List.mem_cons.1 hr with rfl | hr'
      · refine ⟨?_, ?_, List.mem_cons_self _ _⟩
        · intro heq
          exact hne (by rw [heq]; simp)
        · intro hmem
          exact hns (List.elem_eq_true_of_mem hmem)
      · obtain ⟨h1, h2, h3⟩ := ih (m.conversationId :: seen) hr'
        exact ⟨h1, fun hmem => h2 (List.mem_cons_of_mem _ hmem), List.mem_cons_of_mem m h3⟩

theorem dedupByConv_nodup (l : List Msg) (seen : List String) :
    ((dedupByConv l seen).map (fun m => m.conversationId)).Nodup := by
  induction l generalizing seen with
  | nil => exact List.nodup_nil
  | cons m rest ih =>
    unfold dedupByConv
    by_cases hcond : (m.conversationId == "" || seen.contains m.conversationId) = true
    · rw [if_pos hcond]
      exact ih seen
    · rw [if_neg hcond, List.map_cons]
      refine List.nodup_cons.2 ⟨?_, ih (m.conversationId :: seen)⟩
      intro hmem
      rcases List.mem_map.1 hmem with ⟨r, hr, hcid⟩
      have hnot := (mem_dedupByConv rest (m.conversationId :: seen) r hr).2.1
      exact hnot (by rw [hcid]; exact List.mem_cons_self _ _)

theorem dedupByConv_sublist (l : List Msg) (seen : List String) :
    List.Sublist (dedupByConv l seen) l := by
  induction l generalizing seen with
  | nil => exact List.Sublist.refl []
  | cons m rest ih =>
    unfold dedupByConv
    by_cases hcond : (m.conversationId == "" || seen.contains m.conversationId) = true
    · rw [if_pos hcond]
      exact (ih seen).cons m
    · rw [if_neg hcond]
      exact (ih (m.conversationId :: seen)).cons₂ m

/-- In a list sorted most-recent-first, the group representative kept by the
dedup pass carries the maximal timestamp of its conversation. -/
theorem dedupByConv_first_max (l : List Msg) (seen : List String)
    (hp : l.Pairwise createdDesc) (r : Msg) (hr : r ∈ dedupByConv l seen)
    (m : Msg) (hm : m ∈ l) (hcid : m.conversationId = r.conversationId) :
    m.createdAt ≤ r.createdAt := by
  induction l generalizing seen with
  | nil => cases hr
  | cons hd rest ih =>
    have hhd := List.pairwise_cons.1 hp
    unfold dedupByConv at hr
    by_cases hcond : (hd.conversationId == "" || seen.contains hd.conversationId) = true
    · rw [if_pos hcond] at hr
      rcases List.mem_cons.1 hm with heq | hm'
      · -- the skipped head has the same conversation id as r, which is impossible
        exfalso
        obtain ⟨hne, hnseen, _⟩ := mem_dedupByConv rest seen r hr
        have hrid : r.conversationId = hd.conversationId := by rw [← hcid, heq]
        simp only [Bool.or_eq_true] at hcond
        rcases hcond with hblank | hseen
        · exact hne (by rw [hrid]; simpa using hblank)
        · exact hnseen (by rw [hrid]; exact List.mem_of_elem_eq_true hseen)
      · exact ih seen hhd.2 hr hm'
    · rw [if_neg hcond] at hr
      rcases List.mem_cons.1 hr with heqr | hr'
      · rcases List.mem_cons.1 hm with heq | hm'
        · rw [heq, heqr]
        · rw [heqr]
          exact hhd.1 m hm'
      · rcases List.mem_cons.1 hm with heq | hm'
        · exfalso
          have hnot := (mem_dedupByConv rest (hd.conversationId :: seen) r hr').2.1
          exact hnot (by rw [← hcid, heq]; exact List.mem_cons_self _ _)
        · exact ih (hd.conversationId :: seen) hhd.2 hr' hm'

/-- C2: `listConversations` returns exactly one entry per distinct conversation
id — the entry list never repeats a conversation id — and the entries are
ordered by the timestamp of each conversation's most recent message,
descending: the `lastCreatedAt` fields are non-increasing, and each entry's
`lastCreatedAt` dominates the timestamp of every message of that conversation
visible to the user. -/
theorem listConversations_one_entry_sorted (userId : String) (log : List Msg) :
    ((listConversations userId log).map (fun e => e.conversationId)).Nodup ∧
    (listConversations userId log).Pairwise
      (fun e₁ e₂ => e₂.lastCreatedAt ≤ e₁.lastCreatedAt) ∧
    (∀ e ∈ listConversations userId log, ∀ m ∈ log,
      (m.sender == userId || m.recipients.contains userId) = true →
      m.conversationId = e.conversationId → m.createdAt ≤ e.lastCreatedAt) := by
  unfold listConversations
  refine ⟨?_, ?_, ?_⟩
  · rw [List.map_map]
    exact dedupByConv_nodup _ _
  · have hsorted : (List.insertionSort createdDesc
        (log.filter (fun m => m.sender == userId || m.recipients.contains userId))).Pairwise
          createdDesc :=
      List.sorted_insertionSort createdDesc _
    have hreps := hsorted.sublist (dedupByConv_sublist _ [])
    exact List.pairwise_map.2 hreps
  · intro e he m hm hrel hcid
    rcases List.mem_map.1 he with ⟨r, hr, rfl⟩
    have hmsorted : m ∈ List.insertionSort createdDesc
        (log.filter (fun m => m.sender == userId || m.recipients.contains userId)) := by
      rw [List.mem_insertionSort]
      exact List.mem_filter.2 ⟨hm, hrel⟩
    exact dedupByConv_first_max _ [] (List.sorted_insertionSort createdDesc _) r hr m
      hmsorted hcid

/-- C2 witness: the statement at a concrete two-conversation log. -/
theorem listConversations_one_entry_sorted_witness :
    ((listConversations "a" [⟨"a_b", "b", ["a"], "hi", 2, [], []⟩,
        ⟨"a_c", "a", ["c"], "yo", 1, [], []⟩]).map (fun e => e.conversationId)).Nodup ∧
    (listConversations "a" [⟨"a_b", "b", ["a"], "hi", 2, [], []⟩,
        ⟨"a_c", "a", ["c"], "yo", 1, [], []⟩]).Pairwise
      (fun e₁ e₂ => e₂.lastCreatedAt ≤ e₁.lastCreatedAt) ∧
    (∀ e ∈ listConversations "a" [⟨"a_b", "b", ["a"], "hi", 2, [], []⟩,
        ⟨"a_c", "a", ["c"], "yo", 1, [], []⟩],
      ∀ m ∈ ([⟨"a_b", "b", ["a"], "hi", 2, [], []⟩,
        ⟨"a_c", "a", ["c"], "yo", 1, [], []⟩] : List Msg),
      (m.sender == "a" || m.recipients.contains "a") = true →
      m.conversationId = e.conversationId → m.createdAt ≤ e.lastCreatedAt) :=
  listConversations_one_entry_sorted "a"
    [⟨"a_b", "b", ["a"], "hi", 2, [], []⟩, ⟨"a_c", "a", ["c"], "yo", 1, [], []⟩]

/-! ### C6: unread counts -/

theorem countFilter_append (p : Msg → Bool) (log : List Msg) (m : Msg) :
    ((log ++ [m]).filter p).length
      = (log.filter p).length + (if p m then 1 else 0) := by
  rw [List.filter_append, List.length_append]
  cases hp : p m with
  | true => simp [List.filter, hp]
  | false => simp [List.filter, hp]

theorem unread_append_sender_self (v : String) (log : List Msg) (m : Msg)
    (h : m.sender = v) :
    totalUnreadCount v (log ++ [m]) = totalUnreadCount v log ∧
    ∀ cid, unreadInConv v cid (log ++ [m]) = unreadInConv v cid log := by
  constructor
  · unfold totalUnreadCount
    rw [countFilter_append]
    have hp : (m.recipients.contains v && m.sender != v && !(m.readBy.contains v))
        = false := by
      rw [h]
      simp
    rw [hp]
    simp
  · intro cid
    unfold unreadInConv
    rw [countFilter_append]
    have hp : (m.conversationId == cid && m.sender != v && !(m.readBy.contains v))
        = false := by
      rw [h]
      simp
    rw [hp]
    simp

theorem socketSend_log_shape (reg : Registry) (log : List Msg)
    (senderId ssock rid text : String) (now : Nat) :
    (socketSendMessage reg log senderId ssock rid text now).log = log ∨
    ∃ mNew : Msg, (socketSendMessage reg log senderId ssock rid text now).log
      = log ++ [mNew] ∧ mNew.sender = senderId := by
  unfold socketSendMessage
  by_cases hc : (rid == "" || jsTrim text == "") = true
  · rw [if_pos hc]
    exact Or.inl rfl
  · rw [if_neg hc]
    cases hreg : regGet reg rid with
    | some rsock => exact Or.inr ⟨_, rfl, rfl⟩
    | none => exact Or.inr ⟨_, rfl, rfl⟩

theorem restSend_log_shape (reg : Registry) (users : List UserRec) (log : List Msg)
    (fromId uname text : String) (now : Nat) :
    (restSendMessage reg users log fromId uname text now).log = log ∨
    ∃ mNew : Msg, (restSendMessage reg users log fromId uname text now).log
      = log ++ [mNew] ∧ mNew.sender = fromId := by
  unfold restSendMessage
  by_cases hc : (jsTrim text == "") = true
  · rw [if_pos hc]
    exact Or.inl rfl
  · rw [if_neg hc]
    cases hfind : findUserByUsername users uname with
    | some toUser => exact Or.inr ⟨_, rfl, rfl⟩
    | none => exact Or.inl rfl

/-- C6 counterexample: the claim equates the reported unread count for a
viewer with the number of persisted messages not authored by the viewer and
not read by the viewer.  With one persisted message between two *other* users
`"x"` and `"y"`, the unread-count endpoint reports `0` for viewer `"v"` (its
query also requires `recipients: v`), while the claim's count is `1`. -/
theorem unread_total_counterexample :
    totalUnreadCount "v" [⟨"x_y", "x", ["y"], "hi", 1, [], []⟩] = 0 ∧
    (([⟨"x_y", "x", ["y"], "hi", 1, [], []⟩] : List Msg).filter
      (fun m => m.sender != "v" && !(m.readBy.contains "v"))).length = 1 := by
  exact ⟨rfl, rfl⟩

/-- C6 (amended): each `listConversations` entry reports the count of that
conversation's messages not authored by the viewer and not read by the viewer;
the unread-count endpoint reports the count of messages **whose recipients
include the viewer**, not authored by them and not read by them; and the viewer
sending a new message through either send path leaves all of the viewer's own
unread counts (total and per conversation) unchanged, as does appending any
message that does not list the viewer as a recipient to the total count. -/
theorem unread_counts_amended (v : String) (log : List Msg) :
    (∀ e ∈ listConversations v log, e.unreadCount = unreadInConv v e.conversationId log) ∧
    (∀ m : Msg, m.recipients.contains v = false →
      totalUnreadCount v (log ++ [m]) = totalUnreadCount v log) ∧
    (∀ reg ssock rid text now,
      totalUnreadCount v (socketSendMessage reg log v ssock rid text now).log
        = totalUnreadCount v log ∧
      ∀ cid, unreadInConv v cid (socketSendMessage reg log v ssock rid text now).log
        = unreadInConv v cid log) ∧
    (∀ reg users uname text now,
      totalUnreadCount v (restSendMessage reg users log v uname text now).log
        = totalUnreadCount v log ∧
      ∀ cid, unreadInConv v cid (restSendMessage reg users log v uname text now).log
        = unreadInConv v cid log) := by
  refine ⟨?_, ?_, ?_, ?_⟩
  · intro e he
    simp only [listConversations] at he
    rcases List.mem_map.1 he with ⟨r, _, rfl⟩
    rfl
  · intro m hm
    unfold totalUnreadCount
    rw [countFilter_append]
    have hp : (m.recipients.contains v && m.sender != v && !(m.readBy.contains v))
        = false := by
      rw [hm]
      simp
    rw [hp]
    simp
  · intro reg ssock rid text now
    rcases socketSend_log_shape reg log v ssock rid text now with heq | ⟨mNew, heq, hsender⟩
    · rw [heq]
      exact ⟨rfl, fun _ => rfl⟩
    · rw [heq]
      exact unread_append_sender_self v log mNew hsender
  · intro reg users uname text now
    rcases restSend_log_shape reg users log v uname text now with heq | ⟨mNew, heq, hsender⟩
    · rw [heq]
      exact ⟨rfl, fun _ => rfl⟩
    · rw [heq]
      exact unread_append_sender_self v log mNew hsender

/-- C6 witness: the amended statement at a concrete one-message log. -/
theorem unread_counts_amended_witness :
    (∀ e ∈ listConversations "a" [⟨"a_b", "b", ["a"], "hi", 1, [], []⟩],
      e.unreadCount = unreadInConv "a" e.conversationId
        [⟨"a_b", "b", ["a"], "hi", 1, [], []⟩]) ∧
    (∀ m : Msg, m.recipients.contains "a" = false →
      totalUnreadCount "a" ([⟨"a_b", "b", ["a"], "hi", 1, [], []⟩] ++ [m])
        = totalUnreadCount "a" [⟨"a_b", "b", ["a"], "hi", 1, [], []⟩]) ∧
    (∀ reg ssock rid text now,
      totalUnreadCount "a" (socketSendMessage reg [⟨"a_b", "b", ["a"], "hi", 1, [], []⟩]
          "a" ssock rid text now).log
        = totalUnreadCount "a" [⟨"a_b", "b", ["a"], "hi", 1, [], []⟩] ∧
      ∀ cid, unreadInConv "a" cid (socketSendMessage reg
          [⟨"a_b", "b", ["a"], "hi", 1, [], []⟩] "a" ssock rid text now).log
        = unreadInConv "a" cid [⟨"a_b", "b", ["a"], "hi", 1, [], []⟩]) ∧
    (∀ reg users uname text now,
      totalUnreadCount "a" (restSendMessage reg users
          [⟨"a_b", "b", ["a"], "hi", 1, [], []⟩] "a" uname text now).log
        = totalUnreadCount "a" [⟨"a_b", "b", ["a"], "hi", 1, [], []⟩] ∧
      ∀ cid, unreadInConv "a" cid (restSendMessage reg users
          [⟨"a_b", "b", ["a"], "hi", 1, [], []⟩] "a" uname text now).log
        = unreadInConv "a" cid [⟨"a_b", "b", ["a"], "hi", 1, [], []⟩]) :=
  unread_counts_amended "a" [⟨"a_b", "b", ["a"], "hi", 1, [], []⟩]

/-! ### C4: REST send vs socket send -/

/-- C4 counterexample: with recipient `"b"` online (socket `"sb"`), sending the
same text from `"a"` over the socket path persists the message with
`deliveredTo = ["b"]` and emits `message_delivered` to the sender, while the
REST path persists `deliveredTo = []` and emits no delivered notification: the
two surfaces do not produce identical persisted state. -/
theorem rest_socket_divergence_counterexample :
    (socketSendMessage [("b", "sb")] [] "a" "sa" "b" "hi" 1).log
      = [⟨"a_b", "a", ["b"], "hi", 1, ["b"], []⟩] ∧
    (restSendMessage [("b", "sb")] [⟨"b", "bob"⟩] [] "a" "bob" "hi" 1).log
      = [⟨"a_b", "a", ["b"], "hi", 1, [], []⟩] ∧
    (socketSendMessage [("b", "sb")] [] "a" "sa" "b" "hi" 1).log
      ≠ (restSendMessage [("b", "sb")] [⟨"b", "bob"⟩] [] "a" "bob" "hi" 1).log ∧
    (socketSendMessage [("b", "sb")] [] "a" "sa" "b" "hi" 1).emits
      = [WireEvent.messageSent "sa" ⟨"a_b", "a", ["b"], "hi", 1, [], []⟩,
         WireEvent.newMessage "sb" ⟨"a_b", "a", ["b"], "hi", 1, [], []⟩,
         WireEvent.messageDelivered "sa"] ∧
    (restSendMessage [("b", "sb")] [⟨"b", "bob"⟩] [] "a" "bob" "hi" 1).emits
      = [WireEvent.newMessage "sb" ⟨"a_b", "a", ["b"], "hi", 1, [], []⟩] := by
  exact ⟨by decide, by decide, by decide, by decide, by decide⟩

/-- C4 (amended): for a nonempty trimmed text and a recipient that resolves,
both surfaces persist a message with the same conversation id, sender,
recipients, text and empty `readBy`; when the recipient is offline the two
persisted states are identical (both `deliveredTo = []`) and neither path
pushes to the recipient; when the recipient is online both push the same
`new_message` to the recipient's socket, but only the socket path records the
recipient in `deliveredTo` and emits a delivered notification to the sender —
the REST path leaves `deliveredTo` empty and emits none. -/
theorem rest_socket_send_amended (reg : Registry) (users : List UserRec)
    (log : List Msg) (v ssock uname text : String) (now : Nat) (toUser : UserRec)
    (hfind : findUserByUsername users uname = some toUser)
    (htext : (jsTrim text == "") = false) (hrid : (toUser.id == "") = false) :
    (restSendMessage reg users log v uname text now).log
      = log ++ [⟨conversationIdOf v toUser.id, v, [toUser.id], jsTrim text, now, [], []⟩] ∧
    (regGet reg toUser.id = none →
      (socketSendMessage reg log v ssock toUser.id text now).log
        = log ++ [⟨conversationIdOf v toUser.id, v, [toUser.id], jsTrim text, now, [], []⟩] ∧
      (socketSendMessage reg log v ssock toUser.id text now).emits
        = [WireEvent.messageSent ssock
            ⟨conversationIdOf v toUser.id, v, [toUser.id], jsTrim text, now, [], []⟩] ∧
      (restSendMessage reg users log v uname text now).emits = []) ∧
    (∀ rsock, regGet reg toUser.id = some rsock →
      (socketSendMessage reg log v ssock toUser.id text now).log
        = log ++ [⟨conversationIdOf v toUser.id, v, [toUser.id], jsTrim text, now,
                   [toUser.id], []⟩] ∧
      (socketSendMessage reg log v ssock toUser.id text now).emits
        = [WireEvent.messageSent ssock
            ⟨conversationIdOf v toUser.id, v, [toUser.id], jsTrim text, now, [], []⟩,
           WireEvent.newMessage rsock
            ⟨conversationIdOf v toUser.id, v, [toUser.id], jsTrim text, now, [], []⟩,
           WireEvent.messageDelivered ssock] ∧
      (restSendMessage reg users log v uname text now).emits
        = [WireEvent.newMessage rsock
            ⟨conversationIdOf v toUser.id, v, [toUser.id], jsTrim text, now, [], []⟩]) := by
  refine ⟨?_, ?_, ?_⟩
  · unfold restSendMessage
    simp only [htext, Bool.false_eq_true, if_false, hfind]
  · intro hreg
    unfold socketSendMessage restSendMessage
    simp only [htext, hrid, Bool.or_false, Bool.false_eq_true, if_false, hfind, hreg]
    refine ⟨?_, ?_, ?_⟩ <;> first | rfl | trivial
  · intro rsock hreg
    unfold socketSendMessage restSendMessage
    simp only [htext, hrid, Bool.or_false, Bool.false_eq_true, if_false, hfind, hreg]
    refine ⟨?_, ?_, ?_⟩ <;> first | rfl | trivial

/-- C4 witness: the amended statement with recipient `"b"` (user `"bob"`)
online at socket `"sb"`. -/
theorem rest_socket_send_amended_witness :
    (restSendMessage [("b", "sb")] [⟨"b", "bob"⟩] [] "a" "bob" "hi" 1).log
      = [] ++ [⟨conversationIdOf "a" "b", "a", ["b"], jsTrim "hi", 1, [], []⟩] ∧
    (regGet [("b", "sb")] "b" = none →
      (socketSendMessage [("b", "sb")] [] "a" "sa" "b" "hi" 1).log
        = [] ++ [⟨conversationIdOf "a" "b", "a", ["b"], jsTrim "hi", 1, [], []⟩] ∧
      (socketSendMessage [("b", "sb")] [] "a" "sa" "b" "hi" 1).emits
        = [WireEvent.messageSent "sa"
            ⟨conversationIdOf "a" "b", "a", ["b"], jsTrim "hi", 1, [], []⟩] ∧
      (restSendMessage [("b", "sb")] [⟨"b", "bob"⟩] [] "a" "bob" "hi" 1).emits = []) ∧
    (∀ rsock, regGet [("b", "sb")] "b" = some rsock →
      (socketSendMessage [("b", "sb")] [] "a" "sa" "b" "hi" 1).log
        = [] ++ [⟨conversationIdOf "a" "b", "a", ["b"], jsTrim "hi", 1, ["b"], []⟩] ∧
      (socketSendMessage [("b", "sb")] [] "a" "sa" "b" "hi" 1).emits
        = [WireEvent.messageSent "sa"
            ⟨conversationIdOf "a" "b", "a", ["b"], jsTrim "hi", 1, [], []⟩,
           WireEvent.newMessage rsock
            ⟨conversationIdOf "a" "b", "a", ["b"], jsTrim "hi", 1, [], []⟩,
           WireEvent.messageDelivered "sa"] ∧
      (restSendMessage [("b", "sb")] [⟨"b", "bob"⟩] [] "a" "bob" "hi" 1).emits
        = [WireEvent.newMessage rsock
            ⟨conversationIdOf "a" "b", "a", ["b"], jsTrim "hi", 1, [], []⟩]) :=
  rest_socket_send_amended [("b", "sb")] [⟨"b", "bob"⟩] [] "a" "sa" "bob" "hi" 1
    ⟨"b", "bob"⟩ rfl (by decide) (by decide)

/-! ### C3: send validation -/

/-- A whitespace-free repeated character is untouched by the trim. -/
theorem jsTrim_replicate (n : Nat) (c : Char) (hc : c.isWhitespace = false) :
    jsTrim (String.mk (List.replicate n c)) = String.mk (List.replicate n c) := by
  have hdrop : ∀ m : Nat, (List.replicate m c).dropWhile Char.isWhitespace
      = List.replicate m c := by
    intro m
    cases m with
    | zero => rfl
    | succ k =>
      rw [List.replicate_succ, List.dropWhile_cons]
      simp [hc]
  unfold jsTrim
  rw [show (String.mk (List.replicate n c)).data = List.replicate n c from rfl,
    hdrop, List.reverse_replicate, hdrop, List.reverse_replicate]

/-- The accepted branch of the REST send: outcome and persisted message. -/
theorem restSend_accepted_shape (reg : Registry) (users : List UserRec)
    (log : List Msg) (fromId uname text : String) (now : Nat) (toUser : UserRec)
    (ht : (jsTrim text == "") = false)
    (hfind : findUserByUsername users uname = some toUser) :
    (restSendMessage reg users log fromId uname text now).outcome
      = SendOutcome.accepted ∧
    (restSendMessage reg users log fromId uname text now).log
      = log ++ [⟨conversationIdOf fromId toUser.id, fromId, [toUser.id],
                 jsTrim text, now, [], []⟩] := by
  unfold restSendMessage
  simp only [ht, Bool.false_eq_true, if_false, hfind]
  refine ⟨?_, ?_⟩ <;> first | rfl | trivial

/-- C3 counterexample: two violations of the claim.  The socket send path does
no recipient lookup at all: with an empty user store (no user exists), sending
to `"ghost"` still persists a message and is accepted, instead of failing with
`NotFound`.  And the REST path has no maximum-length check: a text of 5001
characters — over the configured limit of 5000 — is accepted and persisted
instead of failing with `ValidationError`. -/
theorem send_validation_counterexample :
    findUserByUsername [] "ghost" = none ∧
    (socketSendMessage [] [] "u1" "s1" "ghost" "hello" 1).log.length = 1 ∧
    (socketSendMessage [] [] "u1" "s1" "ghost" "hello" 1).outcome = SendOutcome.accepted ∧
    (jsTrim (String.mk (List.replicate 5001 'a'))).length > messageLengthLimit ∧
    (restSendMessage [] [⟨"b", "bob"⟩] [] "a" "bob"
      (String.mk (List.replicate 5001 'a')) 1).outcome = SendOutcome.accepted ∧
    (restSendMessage [] [⟨"b", "bob"⟩] [] "a" "bob"
      (String.mk (List.replicate 5001 'a')) 1).log.length = 1 := by
  have htrimEq := jsTrim_replicate 5001 'a' (by decide)
  have hne : (jsTrim (String.mk (List.replicate 5001 'a')) == "") = false := by
    rw [htrimEq]
    decide
  have hrest := restSend_accepted_shape [] [⟨"b", "bob"⟩] [] "a" "bob"
    (String.mk (List.replicate 5001 'a')) 1 ⟨"b", "bob"⟩ hne rfl
  refine ⟨rfl, rfl, rfl, ?_, hrest.1, ?_⟩
  · rw [htrimEq]
    show (List.replicate 5001 'a').length > messageLengthLimit
    rw [List.length_replicate]
    decide
  · rw [hrest.2]
    rfl

/-- C3 (amended): on the REST send path, empty-after-trim text fails with the
validation error and an unresolvable recipient username fails with not-found,
in both cases persisting nothing; but no maximum-length check exists there, and
the socket send path checks no recipient existence at all — any nonempty
recipient id with nonempty trimmed text gets a message persisted for it. -/
theorem send_validation_amended (reg : Registry) (users : List UserRec)
    (log : List Msg) (fromId uname text : String) (now : Nat) :
    ((jsTrim text == "") = true →
      restSendMessage reg users log fromId uname text now
        = ⟨log, [], SendOutcome.validationError⟩) ∧
    ((jsTrim text == "") = false → findUserByUsername users uname = none →
      restSendMessage reg users log fromId uname text now
        = ⟨log, [], SendOutcome.notFound⟩) ∧
    ((jsTrim text == "") = false → ∀ toUser, findUserByUsername users uname = some toUser →
      (restSendMessage reg users log fromId uname text now).outcome = SendOutcome.accepted ∧
      (restSendMessage reg users log fromId uname text now).log
        = log ++ [⟨conversationIdOf fromId toUser.id, fromId, [toUser.id],
                   jsTrim text, now, [], []⟩]) ∧
    (∀ senderId ssock rid, (rid == "") = false → (jsTrim text == "") = false →
      ∃ mNew : Msg, (socketSendMessage reg log senderId ssock rid text now).log
        = log ++ [mNew] ∧ mNew.sender = senderId ∧ mNew.recipients = [rid] ∧
        (socketSendMessage reg log senderId ssock rid text now).outcome
          = SendOutcome.accepted) := by
  refine ⟨?_, ?_, ?_, ?_⟩
  · intro ht
    unfold restSendMessage
    simp only [ht, if_true]
  · intro ht hfind
    unfold restSendMessage
    simp only [ht, Bool.false_eq_true, if_false, hfind]
  · intro ht toUser hfind
    unfold restSendMessage
    simp only [ht, Bool.false_eq_true, if_false, hfind]
    refine ⟨?_, ?_⟩ <;> first | rfl | trivial
  · intro senderId ssock rid hrid ht
    unfold socketSendMessage
    simp only [hrid, ht, Bool.or_false, Bool.false_eq_true, if_false]
    cases hreg : regGet reg rid with
    | some rsock => exact ⟨_, rfl, rfl, rfl, rfl⟩
    | none => exact ⟨_, rfl, rfl, rfl, rfl⟩

/-- C3 witness: the amended statement discharged on concrete inputs —
whitespace-only text is rejected with nothing persisted, an unknown username
is rejected with nothing persisted, a resolvable send persists, and the socket
path persists for a recipient id matching no user. -/
theorem send_validation_amended_witness :
    restSendMessage [] [⟨"b", "bob"⟩] [] "a" "bob" "  " 1
      = ⟨[], [], SendOutcome.validationError⟩ ∧
    restSendMessage [] [] [] "a" "bob" "hi" 1 = ⟨[], [], SendOutcome.notFound⟩ ∧
    ((restSendMessage [] [⟨"b", "bob"⟩] [] "a" "bob" "hi" 1).outcome
        = SendOutcome.accepted ∧
      (restSendMessage [] [⟨"b", "bob"⟩] [] "a" "bob" "hi" 1).log
        = [] ++ [⟨conversationIdOf "a" "b", "a", ["b"], jsTrim "hi", 1, [], []⟩]) ∧
    (∃ mNew : Msg, (socketSendMessage [] [] "a" "sa" "ghost" "hi" 1).log
      = [] ++ [mNew] ∧ mNew.sender = "a" ∧ mNew.recipients = ["ghost"] ∧
      (socketSendMessage [] [] "a" "sa" "ghost" "hi" 1).outcome
        = SendOutcome.accepted) := by
  refine ⟨?_, ?_, ?_, ?_⟩
  · exact (send_validation_amended [] [⟨"b", "bob"⟩] [] "a" "bob" "  " 1).1 (by decide)
  · exact (send_validation_amended [] [] [] "a" "bob" "hi" 1).2.1 (by decide) rfl
  · exact (send_validation_amended [] [⟨"b", "bob"⟩] [] "a" "bob" "hi" 1).2.2.1
      (by decide) ⟨"b", "bob"⟩ rfl
  · exact (send_validation_amended [] [] [] "a" "x" "hi" 1).2.2.2
      "a" "sa" "ghost" (by decide) (by decide)

/-! ### C8: message invariants across operation sequences -/

theorem extendsLog_refl (log : List Msg) : ExtendsLog log log :=
  fun _ hi => ⟨hi, [], [], by rw [List.append_nil], by rw [List.append_nil]⟩

theorem extendsLog_trans {l1 l2 l3 : List Msg}
    (h12 : ExtendsLog l1 l2) (h23 : ExtendsLog l2 l3) : ExtendsLog l1 l3 := by
  intro i hi
  obtain ⟨hj, t, d, ht, hd⟩ := h12 i hi
  obtain ⟨hk, t', d', ht', hd'⟩ := h23 i hj
  exact ⟨hk, t ++ t', d ++ d', by rw [ht', ht, List.append_assoc],
    by rw [hd', hd, List.append_assoc]⟩

theorem extendsLog_append (log l2 : List Msg) : ExtendsLog log (log ++ l2) := by
  intro i hi
  have hj : i < (log ++ l2).length := by
    rw [List.length_append]
    exact Nat.lt_of_lt_of_le hi (Nat.le_add_right _ _)
  have hget : (log ++ l2).get ⟨i, hj⟩ = log.get ⟨i, hi⟩ := List.get_append i hi
  exact ⟨hj, [], [], by rw [hget, List.append_nil], by rw [hget, List.append_nil]⟩

theorem extendsLog_markReadMap (c s u : String) (log : List Msg) :
    ExtendsLog log (log.map (markReadApply c s u)) := by
  intro i hi
  have hj : i < (log.map (markReadApply c s u)).length := by
    rw [List.length_map]
    exact hi
  have hget : (log.map (markReadApply c s u)).get ⟨i, hj⟩
      = markReadApply c s u (log.get ⟨i, hi⟩) := List.get_map _
  refine ⟨hj, ?_⟩
  rw [hget]
  unfold markReadApply
  by_cases h : markReadFilter c s u (log.get ⟨i, hi⟩) = true
  · rw [if_pos h]
    have hcont : (log.get ⟨i, hi⟩).readBy.contains u = false := by
      unfold markReadFilter at h
      simp only [Bool.and_eq_true, Bool.not_eq_true'] at h
      exact h.2
    refine ⟨[u], [], ?_, ?_⟩
    · show addToSet (log.get ⟨i, hi⟩).readBy u = (log.get ⟨i, hi⟩).readBy ++ [u]
      exact addToSet_of_not_contains _ _ hcont
    · show (log.get ⟨i, hi⟩).deliveredTo = (log.get ⟨i, hi⟩).deliveredTo ++ []
      rw [List.append_nil]
  · rw [if_neg h]
    exact ⟨[], [], by rw [List.append_nil], by rw [List.append_nil]⟩

theorem applyOp_extends (log : List Msg) (op : Op) : ExtendsLog log (applyOp log op) := by
  cases op with
  | sockSend reg senderId ssock rid text now =>
    show ExtendsLog log (socketSendMessage reg log senderId ssock rid text now).log
    rcases socketSend_log_shape reg log senderId ssock rid text now with heq | ⟨mNew, heq, _⟩
    · rw [heq]
      exact extendsLog_refl log
    · rw [heq]
      exact extendsLog_append log [mNew]
  | sockRead reg u c s =>
    show ExtendsLog log (sockMarkRead reg log u c s).log
    have hlog : (sockMarkRead reg log u c s).log = log.map (markReadApply c s u) := by
      show (updateManyMarkRead c s u log).1 = _
      rw [updateManyMarkRead_eq]
    rw [hlog]
    exact extendsLog_markReadMap c s u log
  | restSend reg users fromId uname text now =>
    show ExtendsLog log (restSendMessage reg users log fromId uname text now).log
    rcases restSend_log_shape reg users log fromId uname text now with heq | ⟨mNew, heq, _⟩
    · rw [heq]
      exact extendsLog_refl log
    · rw [heq]
      exact extendsLog_append log [mNew]
  | histFetch reg users myId uname =>
    unfold applyOp
    cases hfind : findUserByUsername users uname with
    | none =>
      simp only [getConversation, hfind]
      exact extendsLog_refl log
    | some other =>
      simp only [getConversation, hfind]
      rw [updateManyMarkRead_eq]
      exact extendsLog_markReadMap _ _ _ log

theorem applyOps_extends (log : List Msg) (ops : List Op) :
    ExtendsLog log (applyOps log ops) := by
  induction ops generalizing log with
  | nil => exact extendsLog_refl log
  | cons op rest ih =>
    exact extendsLog_trans (applyOp_extends log op) (ih (applyOp log op))

theorem mem_addToSet (x u : String) (l : List String) (h : x ∈ addToSet l u) :
    x ∈ l ∨ x = u := by
  unfold addToSet at h
  by_cases hc : l.contains u = true
  · rw [if_pos hc] at h
    exact Or.inl h
  · rw [if_neg hc] at h
    rcases List.mem_append.1 h with h1 | h2
    · exact Or.inl h1
    · exact Or.inr (List.mem_singleton.1 h2)

theorem senderNotInSets_markReadMap (c s u : String) (log : List Msg)
    (hinv : senderNotInSets log) (hus : u ≠ s) :
    senderNotInSets (log.map (markReadApply c s u)) := by
  intro m' hm'
  rcases List.mem_map.1 hm' with ⟨m, hm, rfl⟩
  obtain ⟨hd, hr⟩ := hinv m hm
  unfold markReadApply
  by_cases h : markReadFilter c s u m = true
  · rw [if_pos h]
    have hsender : m.sender = s := by
      unfold markReadFilter at h
      simp only [Bool.and_eq_true] at h
      exact eq_of_beq h.1.2
    refine ⟨hd, ?_⟩
    intro hmem
    rcases mem_addToSet _ _ _ hmem with h1 | h2
    · exact hr h1
    · exact hus (h2.symm.trans hsender)
  · rw [if_neg h]
    exact ⟨hd, hr⟩

theorem socketSend_new_msg_inv (reg : Registry) (log : List Msg)
    (senderId ssock rid text : String) (now : Nat) (hne : senderId ≠ rid) :
    ∀ m ∈ (socketSendMessage reg log senderId ssock rid text now).log,
      m ∈ log ∨ (m.sender ∉ m.deliveredTo ∧ m.sender ∉ m.readBy) := by
  intro m hm
  unfold socketSendMessage at hm
  by_cases hc : (rid == "" || jsTrim text == "") = true
  · rw [if_pos hc] at hm
    exact Or.inl hm
  · rw [if_neg hc] at hm
    cases hreg : regGet reg rid with
    | some rsock =>
      rw [hreg] at hm
      rcases List.mem_append.1 hm with h1 | h2
      · exact Or.inl h1
      · right
        have hme := List.mem_singleton.1 h2
        subst hme
        constructor
        · intro hmem
          have hmem' : senderId ∈ addToSet [] rid := hmem
          rcases mem_addToSet _ _ _ hmem' with h3 | h4
          · cases h3
          · exact hne h4
        · intro hmem
          exact List.not_mem_nil _ hmem
    | none =>
      rw [hreg] at hm
      rcases List.mem_append.1 hm with h1 | h2
      · exact Or.inl h1
      · right
        have hme := List.mem_singleton.1 h2
        subst hme
        exact ⟨fun hmem => List.not_mem_nil _ hmem, fun hmem => List.not_mem_nil _ hmem⟩

theorem restSend_new_msg_inv (reg : Registry) (users : List UserRec) (log : List Msg)
    (fromId uname text : String) (now : Nat) :
    ∀ m ∈ (restSendMessage reg users log fromId uname text now).log,
      m ∈ log ∨ (m.deliveredTo = [] ∧ m.readBy = []) := by
  intro m hm
  unfold restSendMessage at hm
  by_cases hc : (jsTrim text == "") = true
  · rw [if_pos hc] at hm
    exact Or.inl hm
  · rw [if_neg hc] at hm
    cases hfind : findUserByUsername users uname with
    | none =>
      rw [hfind] at hm
      exact Or.inl hm
    | some toUser =>
      rw [hfind] at hm
      rcases List.mem_append.1 hm with h1 | h2
      · exact Or.inl h1
      · have hme := List.mem_singleton.1 h2
        subst hme
        exact Or.inr ⟨rfl, rfl⟩

theorem applyOp_inv (log : List Msg) (op : Op) (hinv : senderNotInSets log)
    (hns : op.nonSelf = true) : senderNotInSets (applyOp log op) := by
  cases op with
  | sockSend reg senderId ssock rid text now =>
    have hne : senderId ≠ rid := by
      simpa [Op.nonSelf, bne_iff_ne] using hns
    intro m hm
    rcases socketSend_new_msg_inv reg log senderId ssock rid text now hne m hm with h1 | h2
    · exact hinv m h1
    · exact h2
  | sockRead reg u c s =>
    have hus : u ≠ s := by
      simpa [Op.nonSelf, bne_iff_ne] using hns
    show senderNotInSets (sockMarkRead reg log u c s).log
    have hlog : (sockMarkRead reg log u c s).log = log.map (markReadApply c s u) := by
      show (updateManyMarkRead c s u log).1 = _
      rw [updateManyMarkRead_eq]
    rw [hlog]
    exact senderNotInSets_markReadMap c s u log hinv hus
  | restSend reg users fromId uname text now =>
    intro m hm
    rcases restSend_new_msg_inv reg users log fromId uname text now m hm with h1 | ⟨hd, hr⟩
    · exact hinv m h1
    · exact ⟨by rw [hd]; exact List.not_mem_nil _, by rw [hr]; exact List.not_mem_nil _⟩
  | histFetch reg users myId uname =>
    unfold applyOp
    cases hfind : findUserByUsername users uname with
    | none =>
      simp only [getConversation, hfind]
      exact hinv
    | some other =>
      have hne : myId ≠ other.id := by
        simp only [Op.nonSelf, hfind] at hns
        simpa [bne_iff_ne] using hns
      simp only [getConversation, hfind]
      rw [updateManyMarkRead_eq]
      exact senderNotInSets_markReadMap _ _ _ log hinv hne

theorem applyOps_inv (log : List Msg) (ops : List Op) (hinv : senderNotInSets log)
    (hops : ∀ op ∈ ops, op.nonSelf = true) : senderNotInSets (applyOps log ops) := by
  induction ops generalizing log with
  | nil => exact hinv
  | cons op rest ih =>
    exact ih (applyOp log op) (applyOp_inv log op hinv (hops op (List.mem_cons_self _ _)))
      (fun o ho => hops o (List.mem_cons_of_mem _ ho))

/-- C8 counterexample: a self-send while connected puts the sender's own id
into the new message's `deliveredTo`: user `"u"` (online at socket `"su"`)
sends to recipient `"u"`, and the persisted message has `sender = "u"` with
`"u" ∈ deliveredTo` — the sender-exclusion invariant is violated by the code. -/
theorem sender_in_deliveredTo_counterexample :
    ((socketSendMessage [("u", "su")] [] "u" "su" "u" "hi" 1).log.map
      (fun m => m.deliveredTo.contains m.sender)) = [true] := by
  decide

/-- C8 (amended): across any sequence of send, mark-read and history-fetch
operations, `deliveredTo` and `readBy` are append-only — every pre-existing
message survives with both sets only extended; and provided no operation is
self-directed (sender ≠ recipient on sends, reader ≠ counterpart on mark-read
and history fetch), a sender's id never enters its own message's `deliveredTo`
or `readBy`. -/
theorem message_invariants_amended (log : List Msg) (ops : List Op) :
    ExtendsLog log (applyOps log ops) ∧
    (senderNotInSets log → (∀ op ∈ ops, op.nonSelf = true) →
      senderNotInSets (applyOps log ops)) :=
  ⟨applyOps_extends log ops, fun hinv hops => applyOps_inv log ops hinv hops⟩

/-- C8 witness: the amended statement on a one-message log and a one-element
operation sequence (a mark-read by the recipient). -/
theorem message_invariants_amended_witness :
    ExtendsLog [⟨"a_b", "b", ["a"], "hi", 1, [], []⟩]
      (applyOps [⟨"a_b", "b", ["a"], "hi", 1, [], []⟩] [Op.sockRead [] "a" "a_b" "b"]) ∧
    (senderNotInSets [⟨"a_b", "b", ["a"], "hi", 1, [], []⟩] →
      (∀ op ∈ [Op.sockRead [] "a" "a_b" "b"], op.nonSelf = true) →
      senderNotInSets
        (applyOps [⟨"a_b", "b", ["a"], "hi", 1, [], []⟩] [Op.sockRead [] "a" "a_b" "b"])) :=
  message_invariants_amended [⟨"a_b", "b", ["a"], "hi", 1, [], []⟩]
    [Op.sockRead [] "a" "a_b" "b"]

end Messaging
